import Mathlib

/-
Shallow embedding of the raw-PCM ⇄ WAV audio codec of Pujiverse Voice Studio
(src/App.tsx): the base64 decoder `decode`, the PCM interpreter
`decodeAudioData`, the WAV encoder `encodeWAV` with its helpers `writeString`
and `floatTo16BitPCM`.

Modelling conventions:
- Bytes are `Nat` values in [0, 256); byte sequences are `List Nat`.
- Float32/Float64 sample values are modelled as `ℚ`.  Every arithmetic
  operation the codec performs on samples is exact in IEEE binary64 (and the
  stored Float32 values are exact images of `int16 / 32768`, a dyadic rational
  with a 16-bit significand; the products `s * 32768` and `s * 32767` of a
  Float32 `s` need at most 24 + 15 significand bits, well within binary64's
  53), so the rational semantics coincides with the JS float semantics on
  every value that actually flows through this codec.
- JS exceptions are modelled with `Except`.
-/

namespace App

/-- Read one signed 16-bit little-endian integer from two byte values, as an
element read from a JS `Int16Array` view over the underlying buffer. -/
def int16OfBytes (lo hi : Nat) : Int :=
  let u := lo % 256 + 256 * (hi % 256)
  if u < 32768 then (u : Int) else (u : Int) - 65536

/-- The contents of `new Int16Array(buffer)` for an even-length byte buffer:
consecutive byte pairs read as signed 16-bit little-endian integers.  (On an
odd-length buffer the JS constructor throws a RangeError before any element is
read; `decodeAudioData` models that error path explicitly, so the catch-all
case of this function is never reached with a single trailing byte there.) -/
def toInt16List : List Nat → List Int
  | lo :: hi :: rest => int16OfBytes lo hi :: toInt16List rest
  | _ => []

/-- The multi-channel audio buffer abstraction: a sample rate and one float
sample array per channel (Web Audio `AudioBuffer`, as produced by
`ctx.createBuffer` and filled through `getChannelData`). -/
structure AudioBuffer where
  sampleRate : Nat
  channels : List (List ℚ)
deriving DecidableEq

/-- The number of channels of an `AudioBuffer`. -/
def AudioBuffer.numberOfChannels (b : AudioBuffer) : Nat := b.channels.length

/-- Errors thrown inside `decodeAudioData`:
`rangeError` models the RangeError thrown by `new Int16Array(data.buffer)`
when the buffer's byte length is not a multiple of 2;
`invalidParameter` models the NotSupportedError thrown by
`ctx.createBuffer(numChannels, frameCount, sampleRate)` when any argument
fails its validation (zero or over-cap channel count, zero frame count, zero
or out-of-nominal-range sample rate) — the design document's
`InvalidParameterError`. -/
inductive AudioError where
  | rangeError
  | invalidParameter
deriving DecidableEq

/-- The `ctx : AudioContext` collaborator of `decodeAudioData`, abstracted to
the implementation-defined limits its `createBuffer` validation enforces.
Web Audio mandates that `createBuffer` throw NotSupportedError when any
argument is zero or outside its supported range, and mandates conformance
bounds on those ranges: at least 32 channels must be supported, and the
nominal sample-rate range must contain [8000, 96000] (and, rates being
positive, never contains 0).  The fields carry exactly these conformance
facts, so anything proved for every `AudioContext` holds for every conforming
implementation. -/
structure AudioContext where
  maxChannels : Nat
  minSampleRate : Nat
  maxSampleRate : Nat
  maxChannels_conforming : 32 ≤ maxChannels
  minSampleRate_pos : 0 < minSampleRate
  minSampleRate_conforming : minSampleRate ≤ 8000
  maxSampleRate_conforming : 96000 ≤ maxSampleRate

/-- A minimal conforming `AudioContext`: exactly the 32-channel cap and the
[8000, 96000] nominal sample-rate range the Web Audio specification requires
every implementation to support. -/
def baselineCtx : AudioContext :=
  { maxChannels := 32
    minSampleRate := 8000
    maxSampleRate := 96000
    maxChannels_conforming := by decide
    minSampleRate_pos := by decide
    minSampleRate_conforming := by decide
    maxSampleRate_conforming := by decide }

/-- The PCM interpreter `decodeAudioData` of src/App.tsx.

JS source semantics mirrored here:
- `new Int16Array(data.buffer)` throws a RangeError when `data` has odd byte
  length (modelled first, as in the source order);
- `frameCount = dataInt16.length / numChannels` is JS float division; the
  value reaching `createBuffer` goes through WebIDL `unsigned long` conversion
  (truncation), so the allocated per-channel length is the floor
  `dataInt16.length / numChannels` (Nat division below).  The fill loop runs
  `i < frameCount` with the fractional bound, but its possible final
  iteration writes out of bounds of the Float32Array, which is a silent
  no-op in JS, so the effective contents are exactly the first
  `⌊length / numChannels⌋` frames;
- `ctx.createBuffer(numChannels, frameCount, sampleRate)` throws
  NotSupportedError for a zero or over-cap channel count, a zero frame
  count, and a sample rate outside the context's nominal range;
- each stored sample is `dataInt16[i * numChannels + channel] / 32768.0`. -/
def decodeAudioData (data : List Nat) (ctx : AudioContext)
    (sampleRate numChannels : Nat) : Except AudioError AudioBuffer :=
  if data.length % 2 ≠ 0 then
    Except.error AudioError.rangeError
  else
    let dataInt16 := toInt16List data
    let frameCount := dataInt16.length / numChannels
    if numChannels = 0 ∨ ctx.maxChannels < numChannels ∨ frameCount = 0 ∨
        sampleRate < ctx.minSampleRate ∨ ctx.maxSampleRate < sampleRate then
      Except.error AudioError.invalidParameter
    else
      Except.ok
        { sampleRate := sampleRate
          channels :=
            (List.range numChannels).map fun channel =>
              (List.range frameCount).map fun i =>
                ((dataInt16.getD (i * numChannels + channel) 0 : ℚ)) / 32768 }

/-- All samples of a `decodeAudioData` result, flattened (empty on error). -/
def bufSamples (r : Except AudioError AudioBuffer) : List ℚ :=
  match r with
  | Except.ok b => b.channels.flatten
  | Except.error _ => []

/-! ### Base64 decoder (`decode` of src/App.tsx)

`decode` calls the platform function `atob`, whose behaviour is the WHATWG
"forgiving-base64 decode": remove all ASCII whitespace; if the remaining
length is a multiple of 4, strip up to two trailing `=`; fail when the
remaining length is ≡ 1 (mod 4) or any remaining character is outside the
base64 alphabet; otherwise decode 6-bit groups, a final group of 2 or 3
characters contributing 1 or 2 bytes.  The subsequent `charCodeAt` loop of
`decode` copies the code units (= byte values) into a `Uint8Array`, which the
byte list returned here models directly. -/

/-- ASCII whitespace removed by forgiving-base64 decode (TAB, LF, FF, CR,
SPACE). -/
def isB64Ws (c : Char) : Bool :=
  c == ' ' || c == '\t' || c == '\n' || c == '\r' || c == '\x0c'

/-- The 6-bit value of a base64 alphabet character, `none` outside the
alphabet (padding `=` is not part of the alphabet). -/
def b64Index (c : Char) : Option Nat :=
  if 'A' ≤ c ∧ c ≤ 'Z' then some (c.toNat - 65)
  else if 'a' ≤ c ∧ c ≤ 'z' then some (c.toNat - 97 + 26)
  else if '0' ≤ c ∧ c ≤ '9' then some (c.toNat - 48 + 52)
  else if c = '+' then some 62
  else if c = '/' then some 63
  else none

/-- The 6-bit value of a base64 character, defaulting to 0 (only applied to
validated alphabet characters). -/
def b64Val (c : Char) : Nat := (b64Index c).getD 0

/-- Strip at most two trailing `=` characters. -/
def stripPadding (l : List Char) : List Char :=
  match l.reverse with
  | '=' :: '=' :: rest => rest.reverse
  | '=' :: rest => rest.reverse
  | _ => l

/-- Decode validated base64 characters, 4 characters to 3 bytes; a final
group of 3 characters yields 2 bytes, of 2 characters 1 byte (the leftover
low bits are discarded, as forgiving-base64 does). -/
def decodeGroups : List Char → List Nat
  | a :: b :: c :: d :: rest =>
    let n := b64Val a * 262144 + b64Val b * 4096 + b64Val c * 64 + b64Val d
    n / 65536 :: n / 256 % 256 :: n % 256 :: decodeGroups rest
  | [a, b, c] =>
    let n := b64Val a * 4096 + b64Val b * 64 + b64Val c
    [n / 1024, n / 4 % 256]
  | [a, b] =>
    let n := b64Val a * 64 + b64Val b
    [n / 16]
  | _ => []

/-- The error thrown out of `decode`: `atob` throws on malformed base64 (the
design document's `DecodeError`). -/
inductive DecodeError where
  | decodeError
deriving DecidableEq

/-- The character list `atob` validates and decodes: the input with all
ASCII whitespace removed and, when the remaining length is a multiple of 4,
up to two trailing `=` stripped (forgiving-base64's preprocessing). -/
def b64Stripped (base64 : String) : List Char :=
  let t := base64.data.filter fun c => !(isB64Ws c)
  if t.length % 4 = 0 then stripPadding t else t

/-- The base64 decoder `decode` of src/App.tsx: `atob` (forgiving-base64)
followed by a byte-for-byte copy into a fresh `Uint8Array`.  After the
preprocessing of `b64Stripped`, `atob` fails when the remaining length is
≡ 1 (mod 4) or any remaining character (stray `=` included) is outside the
base64 alphabet. -/
def decode (base64 : String) : Except DecodeError (List Nat) :=
  let t2 := b64Stripped base64
  if t2.length % 4 = 1 then Except.error DecodeError.decodeError
  else if t2.all fun c => (b64Index c).isSome then Except.ok (decodeGroups t2)
  else Except.error DecodeError.decodeError

/-! ### WAV encoder (`encodeWAV`, `writeString`, `floatTo16BitPCM`) -/

/-- JS `ToIntegerOrInfinity` truncation toward zero of a finite number,
applied by `DataView.setInt16` to its value argument. -/
def jsTrunc (q : ℚ) : Int := if 0 ≤ q then ⌊q⌋ else -⌊-q⌋

/-- The two bytes stored by `view.setInt16(offset, x, true)`: the value is
truncated toward zero, wrapped modulo 2^16, and stored little-endian. -/
def setInt16Bytes (x : ℚ) : List Nat :=
  let u := (jsTrunc x % 65536).toNat
  [u % 256, u / 256]

/-- The payload bytes written by `floatTo16BitPCM` of src/App.tsx: each input
sample is clamped to [-1, 1] (`Math.max(-1, Math.min(1, input[i]))`), scaled
by 32768 when negative and by 32767 otherwise, and stored through
`view.setInt16(offset, ·, true)` at consecutive even offsets. -/
def floatTo16BitPCM (input : List ℚ) : List Nat :=
  input.flatMap fun v =>
    let s := max (-1) (min 1 v)
    setInt16Bytes (if s < 0 then s * 32768 else s * 32767)

/-- The bytes written by `writeString` of src/App.tsx: the code units of a
fixed ASCII tag. -/
def writeString (s : String) : List Nat := s.data.map Char.toNat

/-- The two bytes stored by `view.setUint16(offset, n, true)`. -/
def u16Bytes (n : Nat) : List Nat := [n % 256, n / 256 % 256]

/-- The four bytes stored by `view.setUint32(offset, n, true)`. -/
def u32Bytes (n : Nat) : List Nat :=
  [n % 256, n / 256 % 256, n / 65536 % 256, n / 16777216 % 256]

/-- `audioBuffer.getChannelData(c)` (the model is total; real `AudioBuffer`s
always have at least one channel, which the theorems assume where needed). -/
def getChannelData (b : AudioBuffer) (c : Nat) : List ℚ := b.channels.getD c []

/-- The stereo interleaving loop of `encodeWAV`: `interleaved[2i] = L[i]`,
`interleaved[2i+1] = R[i]`, modelled for the equal-length channel arrays a
real `AudioBuffer` guarantees (with unequal lengths the JS loop would read
`undefined` and store NaN, which has no rational image; theorems about the
stereo path therefore carry the equal-length invariant). -/
def interleave2 (L R : List ℚ) : List ℚ :=
  (L.zip R).flatMap fun p => [p.1, p.2]

/-- The interleaved float sequence `encodeWAV` encodes: channels 0 and 1
interleaved when there are exactly 2 channels, channel 0's array directly
otherwise. -/
def interleavedOf (b : AudioBuffer) : List ℚ :=
  if b.numberOfChannels = 2 then
    interleave2 (getChannelData b 0) (getChannelData b 1)
  else getChannelData b 0

/-- `dataLength` as computed by `encodeWAV`: 2 bytes per interleaved
sample. -/
def wavDataLength (b : AudioBuffer) : Nat := (interleavedOf b).length * 2

/-- The WAV encoder `encodeWAV` of src/App.tsx: the 44-byte canonical RIFF
header written field by field at a running offset (each field written exactly
once, consecutively, so the buffer writes concatenate), followed by the
16-bit PCM payload from `floatTo16BitPCM`.  `bitsPerSample = 16`, so
`bitsPerSample / 8 = 2`. -/
def encodeWAV (b : AudioBuffer) : List Nat :=
  let numChannels := b.numberOfChannels
  let sampleRate := b.sampleRate
  let interleaved := interleavedOf b
  let dataLength := interleaved.length * 2
  writeString "RIFF" ++ u32Bytes (36 + dataLength) ++ writeString "WAVE" ++
    writeString "fmt " ++ u32Bytes 16 ++ u16Bytes 1 ++ u16Bytes numChannels ++
    u32Bytes sampleRate ++ u32Bytes (sampleRate * numChannels * 2) ++
    u16Bytes (numChannels * 2) ++ u16Bytes 16 ++
    writeString "data" ++ u32Bytes dataLength ++ floatTo16BitPCM interleaved

/-! ### Byte readback helpers (for stating header/payload properties) -/

/-- Read back an unsigned 32-bit little-endian integer at a byte offset. -/
def readUint32LE (bytes : List Nat) (off : Nat) : Nat :=
  bytes.getD off 0 + 256 * bytes.getD (off + 1) 0 +
    65536 * bytes.getD (off + 2) 0 + 16777216 * bytes.getD (off + 3) 0

/-- Read back a signed 16-bit little-endian integer at a byte offset. -/
def readInt16LE (bytes : List Nat) (off : Nat) : Int :=
  let u := bytes.getD off 0 + 256 * bytes.getD (off + 1) 0
  if u < 32768 then (u : Int) else (u : Int) - 65536

/-- The float-to-int16 conversion as the specification words it ("`s < 0 ?
round(s * 32768) : round(s * 32767)`", rounding to the nearest integer, after
clamping to [-1, 1]); stated for comparison against the code's conversion. -/
def specFloatToInt16 (s : ℚ) : Int :=
  let c := max (-1) (min 1 s)
  if c < 0 then round (c * 32768) else round (c * 32767)

end App

deriving instance DecidableEq for Except

namespace App

/-! ### Helper lemmas -/

theorem int16OfBytes_lb (lo hi : Nat) : -32768 ≤ int16OfBytes lo hi := by
  unfold int16OfBytes
  dsimp only
  split <;> omega

theorem int16OfBytes_ub (lo hi : Nat) : int16OfBytes lo hi ≤ 32767 := by
  unfold int16OfBytes
  dsimp only
  split <;> omega

theorem toInt16List_mem (l : List Nat) :
    ∀ x ∈ toInt16List l, ∃ a b, x = int16OfBytes a b := by
  induction l using toInt16List.induct with
  | case1 lo hi rest ih =>
    intro x hx
    rw [toInt16List] at hx
    rcases List.mem_cons.mp hx with h | h
    · exact ⟨lo, hi, h⟩
    · exact ih x h
  | case2 l h =>
    intro x hx
    rw [toInt16List] at hx
    · exact absurd hx (List.not_mem_nil x)
    · exact h

theorem toInt16List_getD_lb (l : List Nat) (n : Nat) :
    -32768 ≤ (toInt16List l).getD n 0 := by
  rw [List.getD_eq_getElem?_getD]
  cases h : (toInt16List l)[n]? with
  | none => simp
  | some x =>
    obtain ⟨a, b, rfl⟩ := toInt16List_mem l x ((List.mem_iff_getElem?.mpr ⟨n, h⟩))
    simpa using int16OfBytes_lb a b

theorem toInt16List_getD_ub (l : List Nat) (n : Nat) :
    (toInt16List l).getD n 0 ≤ 32767 := by
  rw [List.getD_eq_getElem?_getD]
  cases h : (toInt16List l)[n]? with
  | none => simp
  | some x =>
    obtain ⟨a, b, rfl⟩ := toInt16List_mem l x ((List.mem_iff_getElem?.mpr ⟨n, h⟩))
    simpa using int16OfBytes_ub a b

/-- On odd-length input, `decodeAudioData` stops at the `Int16Array`
construction with a RangeError. -/
theorem decodeAudioData_of_odd (data : List Nat) (ctx : AudioContext)
    (rate nc : Nat) (h : data.length % 2 = 1) :
    decodeAudioData data ctx rate nc = Except.error AudioError.rangeError := by
  unfold decodeAudioData
  simp [h]

/-- On even-length input, `decodeAudioData` fails inside `createBuffer`
whenever one of its arguments fails validation: a zero or over-cap channel
count, a zero frame count, or a sample rate outside the nominal range. -/
theorem decodeAudioData_of_zero (data : List Nat) (ctx : AudioContext)
    (rate nc : Nat) (he : data.length % 2 = 0)
    (hz : nc = 0 ∨ ctx.maxChannels < nc ∨ (toInt16List data).length / nc = 0 ∨
      rate < ctx.minSampleRate ∨ ctx.maxSampleRate < rate) :
    decodeAudioData data ctx rate nc =
      Except.error AudioError.invalidParameter := by
  unfold decodeAudioData
  simp [he, hz]

/-- On even-length input whose channel count, frame count and sample rate
all pass `createBuffer`'s validation, `decodeAudioData` succeeds with the
de-interleaved channels. -/
theorem decodeAudioData_of_pos (data : List Nat) (ctx : AudioContext)
    (rate nc : Nat) (he : data.length % 2 = 0) (hnc : nc ≠ 0)
    (hcap : nc ≤ ctx.maxChannels)
    (hfc : (toInt16List data).length / nc ≠ 0)
    (hlo : ctx.minSampleRate ≤ rate) (hhi : rate ≤ ctx.maxSampleRate) :
    decodeAudioData data ctx rate nc =
      Except.ok
        { sampleRate := rate
          channels :=
            (List.range nc).map fun channel =>
              (List.range ((toInt16List data).length / nc)).map fun i =>
                ((toInt16List data).getD (i * nc + channel) 0 : ℚ) / 32768 } := by
  unfold decodeAudioData
  simp [he, hnc, hfc, Nat.not_lt.mpr hcap, Nat.not_lt.mpr hlo,
    Nat.not_lt.mpr hhi]

theorem getD_map_range {α : Type} (n : Nat) (f : Nat → α) (d : α) (i : Nat)
    (h : i < n) :
    (((List.range n).map f).getD i d) = f i := by
  rw [List.getD_eq_getElem?_getD, List.getElem?_map, List.getElem?_range h]
  rfl

/-! ### Lemmas about the float-to-int16 payload encoder -/

theorem jsTrunc_intCast (n : Int) : jsTrunc (n : ℚ) = n := by
  unfold jsTrunc
  split
  · exact Int.floor_intCast n
  · rw [← Int.cast_neg, Int.floor_intCast]
    omega

theorem jsTrunc_bounds {q : ℚ} {a b : Int} (ha : (a : ℚ) ≤ q) (hb : q ≤ (b : ℚ))
    (ha0 : a ≤ 0) (hb0 : 0 ≤ b) : a ≤ jsTrunc q ∧ jsTrunc q ≤ b := by
  unfold jsTrunc
  split
  · refine ⟨le_trans ha0 (Int.floor_nonneg.mpr ‹0 ≤ q›), ?_⟩
    calc ⌊q⌋ ≤ ⌊(b : ℚ)⌋ := Int.floor_le_floor hb
    _ = b := Int.floor_intCast b
  · have hq : q < 0 := lt_of_not_le ‹¬ 0 ≤ q›
    constructor
    · have : ⌊-q⌋ ≤ ⌊(-a : ℚ)⌋ := by
        apply Int.floor_le_floor
        linarith
      rw [← Int.cast_neg, Int.floor_intCast] at this
      omega
    · have : (0 : Int) ≤ ⌊-q⌋ := Int.floor_nonneg.mpr (by linarith)
      omega

/-- The clamped sample of a float value lies in [-1, 1]. -/
theorem clamp_mem (v : ℚ) : -1 ≤ max (-1) (min 1 v) ∧ max (-1) (min 1 v) ≤ 1 :=
  ⟨le_max_left _ _, max_le (by norm_num) (min_le_left _ _)⟩

/-- The integer passed to `setInt16` by `floatTo16BitPCM` lies in the int16
range, so the modulo-2^16 store wraps nothing. -/
theorem pcmScaled_bounds (v : ℚ) :
    -32768 ≤ jsTrunc (if max (-1) (min 1 v) < 0 then max (-1) (min 1 v) * 32768
                      else max (-1) (min 1 v) * 32767) ∧
    jsTrunc (if max (-1) (min 1 v) < 0 then max (-1) (min 1 v) * 32768
             else max (-1) (min 1 v) * 32767) ≤ 32767 := by
  obtain ⟨h1, h2⟩ := clamp_mem v
  set s := max (-1) (min 1 v) with hs
  split
  · rename_i hneg
    have ha : ((-32768 : Int) : ℚ) ≤ s * 32768 := by push_cast; linarith
    have hb : s * 32768 ≤ ((0 : Int) : ℚ) := by push_cast; linarith
    have h := jsTrunc_bounds ha hb (by norm_num) (by norm_num)
    exact ⟨h.1, by omega⟩
  · rename_i hpos
    have h0 : (0 : ℚ) ≤ s := le_of_not_lt hpos
    have ha : ((0 : Int) : ℚ) ≤ s * 32767 := by push_cast; nlinarith
    have hb : s * 32767 ≤ ((32767 : Int) : ℚ) := by push_cast; nlinarith
    have h := jsTrunc_bounds ha hb (by norm_num) (by norm_num)
    exact ⟨by omega, h.2⟩

/-- Reading back the two bytes stored by `setInt16` recovers any value in the
int16 range. -/
theorem readInt16LE_setInt16Bytes (y : ℚ) (tail : List Nat)
    (h1 : -32768 ≤ jsTrunc y) (h2 : jsTrunc y ≤ 32767) :
    readInt16LE (setInt16Bytes y ++ tail) 0 = jsTrunc y := by
  simp only [readInt16LE, setInt16Bytes, List.cons_append, List.getD_cons_zero,
    List.getD_cons_succ]
  omega

theorem floatTo16BitPCM_cons (v : ℚ) (l : List ℚ) :
    floatTo16BitPCM (v :: l) =
      setInt16Bytes (if max (-1) (min 1 v) < 0 then max (-1) (min 1 v) * 32768
                     else max (-1) (min 1 v) * 32767) ++ floatTo16BitPCM l := rfl

theorem floatTo16BitPCM_length (l : List ℚ) :
    (floatTo16BitPCM l).length = 2 * l.length := by
  induction l with
  | nil => rfl
  | cons v t ih =>
    rw [floatTo16BitPCM_cons, List.length_append, ih]
    simp only [setInt16Bytes, List.length_cons, List.length_nil]
    omega

/-- Reading an int16 two positions further skips one leading 2-byte block. -/
theorem readInt16LE_cons2 (a b : Nat) (l : List Nat) (n : Nat) :
    readInt16LE (a :: b :: l) (n + 2) = readInt16LE l n := by
  unfold readInt16LE
  have e1 : n + 2 = (n + 1) + 1 := rfl
  have e2 : n + 2 + 1 = (n + 1 + 1) + 1 := rfl
  rw [e1, e2, List.getD_cons_succ, List.getD_cons_succ, List.getD_cons_succ,
    List.getD_cons_succ]

/-- The int16 value read back at payload position `i` is the clamped,
scaled, toward-zero-truncated image of input sample `i`. -/
theorem readInt16LE_floatTo16BitPCM (input : List ℚ) (i : Nat)
    (hi : i < input.length) :
    readInt16LE (floatTo16BitPCM input) (2 * i) =
      jsTrunc (if max (-1) (min 1 (input.getD i 0)) < 0
               then max (-1) (min 1 (input.getD i 0)) * 32768
               else max (-1) (min 1 (input.getD i 0)) * 32767) := by
  induction input generalizing i with
  | nil => exact absurd hi (by simp)
  | cons v t ih =>
    cases i with
    | zero =>
      rw [floatTo16BitPCM_cons]
      simpa using readInt16LE_setInt16Bytes _ (floatTo16BitPCM t)
        (pcmScaled_bounds v).1 (pcmScaled_bounds v).2
    | succ j =>
      have hj : j < t.length := by simpa using hi
      rw [floatTo16BitPCM_cons]
      simp only [setInt16Bytes, List.cons_append, List.nil_append]
      have e : 2 * (j + 1) = 2 * j + 2 := by ring
      rw [e, readInt16LE_cons2]
      simpa using ih j hj

/-! ### Lemmas about the WAV container layout -/

theorem writeString_RIFF : writeString "RIFF" = [82, 73, 70, 70] := by decide

theorem writeString_WAVE : writeString "WAVE" = [87, 65, 86, 69] := by decide

theorem writeString_fmt : writeString "fmt " = [102, 109, 116, 32] := by decide

theorem writeString_data : writeString "data" = [100, 97, 116, 97] := by decide

/-- The encoder output is a 44-byte header followed by the payload. -/
theorem encodeWAV_decomp (b : AudioBuffer) :
    encodeWAV b =
      [82, 73, 70, 70,
       (36 + wavDataLength b) % 256, (36 + wavDataLength b) / 256 % 256,
       (36 + wavDataLength b) / 65536 % 256,
       (36 + wavDataLength b) / 16777216 % 256,
       87, 65, 86, 69, 102, 109, 116, 32, 16, 0, 0, 0, 1, 0,
       b.numberOfChannels % 256, b.numberOfChannels / 256 % 256,
       b.sampleRate % 256, b.sampleRate / 256 % 256,
       b.sampleRate / 65536 % 256, b.sampleRate / 16777216 % 256,
       (b.sampleRate * b.numberOfChannels * 2) % 256,
       (b.sampleRate * b.numberOfChannels * 2) / 256 % 256,
       (b.sampleRate * b.numberOfChannels * 2) / 65536 % 256,
       (b.sampleRate * b.numberOfChannels * 2) / 16777216 % 256,
       (b.numberOfChannels * 2) % 256, (b.numberOfChannels * 2) / 256 % 256,
       16, 0, 100, 97, 116, 97,
       wavDataLength b % 256, wavDataLength b / 256 % 256,
       wavDataLength b / 65536 % 256, wavDataLength b / 16777216 % 256] ++
      floatTo16BitPCM (interleavedOf b) := by
  simp [encodeWAV, writeString_RIFF, writeString_WAVE, writeString_fmt,
    writeString_data, u32Bytes, u16Bytes, wavDataLength]

theorem encodeWAV_length (b : AudioBuffer) :
    (encodeWAV b).length = 44 + wavDataLength b := by
  rw [encodeWAV_decomp, List.length_append, floatTo16BitPCM_length]
  simp [wavDataLength]
  omega

theorem readUint32LE_encodeWAV_4 (b : AudioBuffer)
    (h : 36 + wavDataLength b < 4294967296) :
    readUint32LE (encodeWAV b) 4 = 36 + wavDataLength b := by
  rw [encodeWAV_decomp]
  simp only [readUint32LE, List.cons_append, List.getD_cons_succ,
    List.getD_cons_zero]
  omega

theorem readUint32LE_encodeWAV_24 (b : AudioBuffer)
    (h : b.sampleRate < 4294967296) :
    readUint32LE (encodeWAV b) 24 = b.sampleRate := by
  rw [encodeWAV_decomp]
  simp only [readUint32LE, List.cons_append, List.getD_cons_succ,
    List.getD_cons_zero]
  omega

theorem readUint32LE_encodeWAV_40 (b : AudioBuffer)
    (h : wavDataLength b < 4294967296) :
    readUint32LE (encodeWAV b) 40 = wavDataLength b := by
  rw [encodeWAV_decomp]
  simp only [readUint32LE, List.cons_append, List.getD_cons_succ,
    List.getD_cons_zero]
  omega

/-! ### Lemmas about the base64 decoder -/

/-- Stripping trailing padding keeps every non-`=` character. -/
theorem stripPadding_mem {l : List Char} {c : Char} (h : c ∈ l) (hne : c ≠ '=') :
    c ∈ stripPadding l := by
  unfold stripPadding
  split
  · rename_i rest heq
    rw [List.mem_reverse]
    have : c ∈ l.reverse := List.mem_reverse.mpr h
    rw [heq] at this
    rcases List.mem_cons.mp this with h1 | h1
    · exact absurd h1 hne
    rcases List.mem_cons.mp h1 with h2 | h2
    · exact absurd h2 hne
    · exact h2
  · rename_i rest heq
    rw [List.mem_reverse]
    have : c ∈ l.reverse := List.mem_reverse.mpr h
    rw [heq] at this
    rcases List.mem_cons.mp this with h1 | h1
    · exact absurd h1 hne
    · exact h1
  · exact h

/-- The PCM sample stream has `⌊byteLength / 2⌋` samples. -/
theorem toInt16List_length : ∀ l : List Nat, (toInt16List l).length = l.length / 2
  | [] => rfl
  | [a] => by
    have h : toInt16List [a] = [] := by simp [toInt16List]
    simp [h]
  | lo :: hi :: rest => by
    rw [toInt16List, List.length_cons, toInt16List_length rest]
    simp only [List.length_cons]
    omega

/-! ### Claims -/

/-- C1 counterexample: on the odd-length input `[0x00]` the PCM interpreter
does not succeed with `⌊1/2⌋ = 0` samples; it fails with the RangeError the
`Int16Array` constructor throws for an odd-length buffer. -/
theorem C1_counterexample :
    decodeAudioData [0] baselineCtx 24000 1 =
      Except.error AudioError.rangeError := by
  decide

/-- C1 (amended): for every input of odd byte length, `decodeAudioData` fails
with a RangeError (from `new Int16Array(data.buffer)`); the trailing byte is
not silently dropped.  The sample stream of the `Int16Array` view always has
`⌊length/2⌋` samples, but an odd-length input never reaches it. -/
theorem C1_theorem (data : List Nat) (ctx : AudioContext) (rate nc : Nat)
    (h : data.length % 2 = 1) :
    decodeAudioData data ctx rate nc = Except.error AudioError.rangeError ∧
      (toInt16List data).length = data.length / 2 :=
  ⟨decodeAudioData_of_odd data ctx rate nc h, toInt16List_length data⟩

/-- C1 witness: a concrete odd-length input fails with the RangeError. -/
theorem C1_witness :
    decodeAudioData [7, 7, 7] baselineCtx 8000 1 =
        Except.error AudioError.rangeError ∧
      (toInt16List [7, 7, 7]).length = 1 :=
  C1_theorem [7, 7, 7] baselineCtx 8000 1 (by decide)

/-- C4 counterexample: the odd-length input `[1, 2, 3]` (RangeError) and the
zero sample rate on the even-length input `[0, 0]` (`createBuffer`
validation) both make `decodeAudioData` fail although the supplied channel
count 1 is not zero, so a caller-supplied channel count of zero is not the
only error path. -/
theorem C4_counterexample :
    (decodeAudioData [1, 2, 3] baselineCtx 24000 1 =
        Except.error AudioError.rangeError ∧
      decodeAudioData [0, 0] baselineCtx 0 1 =
        Except.error AudioError.invalidParameter) ∧
      (1 : Nat) ≠ 0 := by
  decide

/-- C4 (amended): `decodeAudioData` has exactly these error paths: an odd
input byte length fails with the `Int16Array` RangeError (checked first); on
even-length input, `ctx.createBuffer`'s argument validation fails (the
design document's `InvalidParameterError`) exactly when the channel count is
zero or above the context's supported maximum, the frame count is zero, or
the sample rate is outside the context's nominal range (zero always is);
every other input decodes successfully. -/
theorem C4_theorem (data : List Nat) (ctx : AudioContext) (rate nc : Nat) :
    (data.length % 2 = 1 →
      decodeAudioData data ctx rate nc = Except.error AudioError.rangeError) ∧
    (data.length % 2 = 0 →
      (nc = 0 ∨ ctx.maxChannels < nc ∨ (toInt16List data).length / nc = 0 ∨
        rate < ctx.minSampleRate ∨ ctx.maxSampleRate < rate) →
      decodeAudioData data ctx rate nc =
        Except.error AudioError.invalidParameter) ∧
    (data.length % 2 = 0 → nc ≠ 0 → nc ≤ ctx.maxChannels →
      (toInt16List data).length / nc ≠ 0 →
      ctx.minSampleRate ≤ rate → rate ≤ ctx.maxSampleRate →
      ∃ b, decodeAudioData data ctx rate nc = Except.ok b) := by
  refine ⟨decodeAudioData_of_odd data ctx rate nc,
    decodeAudioData_of_zero data ctx rate nc,
    fun he hnc hcap hfc hlo hhi => ?_⟩
  exact ⟨_, decodeAudioData_of_pos data ctx rate nc he hnc hcap hfc hlo hhi⟩

/-- C4 witness: on the even-length input `[0, 0]`, channel count zero and
sample rate zero each fail with the `createBuffer` parameter error, while
channel count 1 at 24000 Hz decodes successfully. -/
theorem C4_witness :
    decodeAudioData [0, 0] baselineCtx 44100 0 =
        Except.error AudioError.invalidParameter ∧
      decodeAudioData [0, 0] baselineCtx 0 1 =
        Except.error AudioError.invalidParameter ∧
      ∃ b, decodeAudioData [0, 0] baselineCtx 24000 1 = Except.ok b :=
  ⟨(C4_theorem [0, 0] baselineCtx 44100 0).2.1 (by decide) (Or.inl rfl),
   (C4_theorem [0, 0] baselineCtx 0 1).2.1 (by decide)
     (Or.inr (Or.inr (Or.inr (Or.inl (by decide))))),
   (C4_theorem [0, 0] baselineCtx 24000 1).2.2 (by decide) (by decide)
     (by decide) (by decide) (by decide) (by decide)⟩

/-- C2 counterexample: the input `[0x00, 0x80]` decodes to the single sample
`-32768 / 32768 = -1.0`, which is not strictly greater than `-1.0`, so the
produced amplitude range is not `(-1.0, 1.0]`. -/
theorem C2_counterexample :
    bufSamples (decodeAudioData [0, 128] baselineCtx 24000 1) = [-1] ∧
      ¬ (-1 < (-1 : ℚ)) := by
  constructor
  · rw [decodeAudioData_of_pos [0, 128] baselineCtx 24000 1 (by decide)
      (by decide) (by decide) (by decide) (by decide) (by decide)]
    simp [bufSamples, toInt16List, int16OfBytes, List.range_succ]
  · simp

/-- C2 (amended): every sample value produced by `decodeAudioData` lies in
the half-open interval [-1.0, 1.0): at least `-1.0` (attained at the int16
value -32768) and strictly below `1.0`. -/
theorem C2_theorem (data : List Nat) (ctx : AudioContext) (rate nc : Nat)
    (s : ℚ) (hs : s ∈ bufSamples (decodeAudioData data ctx rate nc)) :
    -1 ≤ s ∧ s < 1 := by
  by_cases he : data.length % 2 = 0
  · by_cases hz : nc = 0 ∨ ctx.maxChannels < nc ∨
        (toInt16List data).length / nc = 0 ∨
        rate < ctx.minSampleRate ∨ ctx.maxSampleRate < rate
    · rw [decodeAudioData_of_zero data ctx rate nc he hz] at hs
      simp [bufSamples] at hs
    · push_neg at hz
      obtain ⟨h1, h2, h3, h4, h5⟩ := hz
      rw [decodeAudioData_of_pos data ctx rate nc he h1 h2 h3 h4 h5] at hs
      simp only [bufSamples] at hs
      rw [List.mem_flatten] at hs
      obtain ⟨ch, hch, hsc⟩ := hs
      rw [List.mem_map] at hch
      obtain ⟨c, _, rfl⟩ := hch
      rw [List.mem_map] at hsc
      obtain ⟨i, _, rfl⟩ := hsc
      have hlb := toInt16List_getD_lb data (i * nc + c)
      have hub := toInt16List_getD_ub data (i * nc + c)
      constructor
      · rw [le_div_iff₀ (by norm_num : (0 : ℚ) < 32768)]
        have : ((-32768 : Int) : ℚ) ≤ ((toInt16List data).getD (i * nc + c) 0 : ℚ) := by
          exact_mod_cast hlb
        push_cast at this ⊢
        linarith
      · rw [div_lt_one (by norm_num : (0 : ℚ) < 32768)]
        have : (((toInt16List data).getD (i * nc + c) 0 : ℚ)) ≤ ((32767 : Int) : ℚ) := by
          exact_mod_cast hub
        push_cast at this ⊢
        linarith
  · rw [decodeAudioData_of_odd data ctx rate nc (by omega)] at hs
    simp [bufSamples] at hs

/-- C2 witness: the concrete sample 0.0 produced from input `[0x00, 0x00]`
satisfies the amended bounds. -/
theorem C2_witness : -1 ≤ (0 : ℚ) ∧ (0 : ℚ) < 1 :=
  C2_theorem [0, 0] baselineCtx 24000 1 0 (by
    rw [decodeAudioData_of_pos [0, 0] baselineCtx 24000 1 (by decide)
      (by decide) (by decide) (by decide) (by decide) (by decide)]
    simp [bufSamples, toInt16List, int16OfBytes, List.range_succ])

/-- C6 counterexample: the even-length input `[0x00, 0x00, 0x00, 0x40]` with
the positive channel count 1 has two frames in range, yet at sample rate 0
`decodeAudioData` produces no buffer at all (`createBuffer` rejects a zero
sample rate), so the claimed channel assignments do not hold of every call
with an even input and a positive channel count. -/
theorem C6_counterexample :
    decodeAudioData [0, 0, 0, 64] baselineCtx 0 1 =
        Except.error AudioError.invalidParameter ∧
      [0, 0, 0, 64].length % 2 = 0 ∧ (0 : Nat) < 1 ∧
      (0 : Nat) < (toInt16List [0, 0, 0, 64]).length / 1 := by
  decide

/-- C6 (amended): on every even-length input, for every positive channel
count within the context's supported maximum and every sample rate inside
the context's nominal range, whenever channel `c` and frame `i` are in
range, `decodeAudioData` succeeds and stores
`channel[c][i] = PcmSampleStream[i * channelCount + c] / 32768.0`. -/
theorem C6_theorem (data : List Nat) (ctx : AudioContext) (rate nc c i : Nat)
    (he : data.length % 2 = 0) (hnc : 0 < nc) (hcap : nc ≤ ctx.maxChannels)
    (hlo : ctx.minSampleRate ≤ rate) (hhi : rate ≤ ctx.maxSampleRate)
    (hc : c < nc) (hi : i < (toInt16List data).length / nc) :
    ∃ b, decodeAudioData data ctx rate nc = Except.ok b ∧
      b.numberOfChannels = nc ∧
      (b.channels.getD c []).getD i 0 =
        ((toInt16List data).getD (i * nc + c) 0 : ℚ) / 32768 := by
  have hfc : (toInt16List data).length / nc ≠ 0 := by omega
  refine ⟨_, decodeAudioData_of_pos data ctx rate nc he (by omega) hcap hfc
    hlo hhi, ?_, ?_⟩
  · simp [AudioBuffer.numberOfChannels]
  · rw [getD_map_range nc _ [] c hc, getD_map_range _ _ 0 i hi]

/-- C6 witness: the bytes `[0x00, 0x00, 0x00, 0x40]` with channelCount 1 at
24000 Hz decode successfully and frame 1 of channel 0 is
`16384 / 32768 = 0.5`. -/
theorem C6_witness :
    ∃ b, decodeAudioData [0, 0, 0, 64] baselineCtx 24000 1 = Except.ok b ∧
      (b.channels.getD 0 []).getD 1 0 = 1 / 2 := by
  obtain ⟨b, hok, _, hval⟩ := C6_theorem [0, 0, 0, 64] baselineCtx 24000 1 0 1
    (by decide) (by decide) (by decide) (by decide) (by decide) (by decide)
    (by decide)
  refine ⟨b, hok, ?_⟩
  rw [hval]
  norm_num [toInt16List, int16OfBytes]

/-- C7: an input sample of amplitude exactly 1.0 encodes to the int16 value
32767 (the positive branch scales by 32767, avoiding overflow), and amplitude
exactly -1.0 encodes to -32768. -/
theorem C7_theorem :
    readInt16LE (floatTo16BitPCM [1]) 0 = 32767 ∧
      readInt16LE (floatTo16BitPCM [(-1 : ℚ)]) 0 = -32768 := by
  constructor
  · have h := readInt16LE_floatTo16BitPCM [1] 0 (by simp)
    norm_num at h
    rw [h, show ((32767 : ℚ)) = ((32767 : Int) : ℚ) by norm_num, jsTrunc_intCast]
  · have h := readInt16LE_floatTo16BitPCM [(-1 : ℚ)] 0 (by simp)
    norm_num at h
    rw [h, show ((-32768 : ℚ)) = (((-32768 : Int)) : ℚ) by norm_num,
      jsTrunc_intCast]

/-- C3 counterexample: at the sample 0.5 the encoder writes
`trunc(0.5 * 32767) = 16383`, while the claimed round-to-nearest conversion
would give `round(16383.5) = 16384`. -/
theorem C3_counterexample :
    readInt16LE (floatTo16BitPCM [1 / 2]) 0 = 16383 ∧
      specFloatToInt16 (1 / 2) = 16384 ∧ (16383 : Int) ≠ 16384 := by
  refine ⟨?_, ?_, by decide⟩
  · have h := readInt16LE_floatTo16BitPCM [(1 / 2 : ℚ)] 0 (by simp)
    norm_num [jsTrunc] at h
    exact h
  · norm_num [specFloatToInt16, round_eq]

/-- C3 (amended): each interleaved float sample `s` is clamped to [-1, 1] and
then written as the signed 16-bit little-endian integer `trunc(s * 32768)`
when `s < 0` and `trunc(s * 32767)` otherwise — the conversion truncates
toward zero (as `DataView.setInt16` does), it does not round to nearest. -/
theorem C3_theorem (input : List ℚ) (i : Nat) (hi : i < input.length) :
    readInt16LE (floatTo16BitPCM input) (2 * i) =
      (if max (-1) (min 1 (input.getD i 0)) < 0
       then jsTrunc (max (-1) (min 1 (input.getD i 0)) * 32768)
       else jsTrunc (max (-1) (min 1 (input.getD i 0)) * 32767)) := by
  rw [readInt16LE_floatTo16BitPCM input i hi, apply_ite jsTrunc]

/-- C3 witness: the concrete sample -0.75 is written as
`trunc(-0.75 * 32768) = -24576`. -/
theorem C3_witness :
    readInt16LE (floatTo16BitPCM [(-(3 / 4) : ℚ)]) 0 = -24576 := by
  have h := C3_theorem [(-(3 / 4) : ℚ)] 0 (by simp)
  norm_num [jsTrunc] at h
  exact h

/-- C9: normalizing an int16 value `v` to `v / 32768.0` (as `decodeAudioData`
does) and re-encoding through `floatTo16BitPCM` returns `v` exactly when
`v ≤ 0`, and `v - 1` when `v > 0` (the positive branch scales by 32767 and
the store truncates toward zero), so the payload round-trip is exact only on
non-positive samples. -/
theorem C9_theorem (v : Int) (h1 : -32768 ≤ v) (h2 : v ≤ 32767) :
    (v ≤ 0 → readInt16LE (floatTo16BitPCM [(v : ℚ) / 32768]) 0 = v) ∧
    (0 < v → readInt16LE (floatTo16BitPCM [(v : ℚ) / 32768]) 0 = v - 1) := by
  have hle : (v : ℚ) / 32768 ≤ 1 := by
    rw [div_le_one (by norm_num : (0 : ℚ) < 32768)]
    exact_mod_cast le_trans h2 (by norm_num)
  have hge : -1 ≤ (v : ℚ) / 32768 := by
    rw [le_div_iff₀ (by norm_num : (0 : ℚ) < 32768)]
    have : ((-32768 : Int) : ℚ) ≤ (v : ℚ) := by exact_mod_cast h1
    push_cast at this ⊢
    linarith
  have hclamp : max (-1) (min 1 ((v : ℚ) / 32768)) = (v : ℚ) / 32768 := by
    rw [min_eq_right hle, max_eq_right hge]
  have hread := readInt16LE_floatTo16BitPCM [(v : ℚ) / 32768] 0 (by simp)
  rw [show (2 * 0 : Nat) = 0 from rfl] at hread
  simp only [List.getD_cons_zero, hclamp] at hread
  constructor
  · intro hv0
    rcases lt_or_eq_of_le hv0 with hlt | heq
    · have hneg : (v : ℚ) / 32768 < 0 := by
        apply div_neg_of_neg_of_pos _ (by norm_num)
        exact_mod_cast hlt
      rw [if_pos hneg, div_mul_cancel₀ _ (by norm_num : (32768 : ℚ) ≠ 0),
        jsTrunc_intCast] at hread
      exact hread
    · subst heq
      norm_num [jsTrunc] at hread ⊢
      exact hread
  · intro hvpos
    have hpos : (0 : ℚ) < (v : ℚ) / 32768 := by
      apply div_pos _ (by norm_num)
      exact_mod_cast hvpos
    rw [if_neg (not_lt_of_gt hpos)] at hread
    have hval : ((v : ℚ) / 32768) * 32767 = (v : ℚ) - (v : ℚ) / 32768 := by
      ring
    rw [hval] at hread
    have h0 : (0 : ℚ) ≤ (v : ℚ) - (v : ℚ) / 32768 := by linarith
    rw [jsTrunc, if_pos h0] at hread
    rw [hread]
    rw [Int.floor_eq_iff]
    constructor
    · push_cast
      linarith
    · push_cast
      linarith

/-- C9 witness: the int16 value -5 round-trips exactly, the int16 value 100
comes back as 99. -/
theorem C9_witness :
    readInt16LE (floatTo16BitPCM [((-5 : Int) : ℚ) / 32768]) 0 = -5 ∧
      readInt16LE (floatTo16BitPCM [((100 : Int) : ℚ) / 32768]) 0 = 100 - 1 :=
  ⟨(C9_theorem (-5) (by norm_num) (by norm_num)).1 (by norm_num),
   (C9_theorem 100 (by norm_num) (by norm_num)).2 (by norm_num)⟩

/-- C5: the WAV encoder output is exactly `44 + dataLength` bytes long with
`dataLength = 2 * length(interleaved)`, the uint32 at offset 4 is
`36 + dataLength`, the uint32 at offset 40 is `dataLength`, and the uint32 at
offset 24 is the sample rate.  The hypotheses state the `AudioBuffer`
invariants (at least one channel, equal channel lengths) and that the sizes
fit an unsigned 32-bit field, as any constructible buffer's do. -/
theorem C5_theorem (b : AudioBuffer) ( _hne : b.channels ≠ [])
    ( _hlen : b.numberOfChannels = 2 →
      (getChannelData b 0).length = (getChannelData b 1).length)
    (hdl : 36 + wavDataLength b < 4294967296)
    (hsr : b.sampleRate < 4294967296) :
    (encodeWAV b).length = 44 + wavDataLength b ∧
      readUint32LE (encodeWAV b) 4 = 36 + wavDataLength b ∧
      readUint32LE (encodeWAV b) 40 = wavDataLength b ∧
      readUint32LE (encodeWAV b) 24 = b.sampleRate :=
  ⟨encodeWAV_length b, readUint32LE_encodeWAV_4 b hdl,
    readUint32LE_encodeWAV_40 b (by omega), readUint32LE_encodeWAV_24 b hsr⟩

/-- C5 witness: the mono buffer of samples [0.0, 0.5] at 24000 Hz encodes to
exactly 48 bytes, with bytes 24-27 reading 24000, bytes 40-43 reading 4, and
bytes 4-7 reading 40. -/
theorem C5_witness :
    (encodeWAV ⟨24000, [[0, 1 / 2]]⟩).length = 48 ∧
      readUint32LE (encodeWAV ⟨24000, [[0, 1 / 2]]⟩) 24 = 24000 ∧
      readUint32LE (encodeWAV ⟨24000, [[0, 1 / 2]]⟩) 40 = 4 ∧
      readUint32LE (encodeWAV ⟨24000, [[0, 1 / 2]]⟩) 4 = 40 := by
  have h := C5_theorem ⟨24000, [[0, 1 / 2]]⟩ (by simp)
    (by intro hlen; simp [AudioBuffer.numberOfChannels] at hlen) (by decide)
    (by decide)
  obtain ⟨hl, h4, h40, h24⟩ := h
  refine ⟨?_, ?_, ?_, ?_⟩
  · rw [hl]; decide
  · rw [h24]
  · rw [h40]; decide
  · rw [h4]; decide

/-- C8 counterexample: the space character is outside the base64 alphabet
(and is not padding), yet `decode " "` succeeds with the empty output —
`atob` strips ASCII whitespace before validating — so an input containing a
character outside the alphabet does not always fail. -/
theorem C8_counterexample :
    b64Index ' ' = none ∧ ' ' ≠ '=' ∧ decode " " = Except.ok [] := by
  decide

/-- C8 (amended): after the ASCII-whitespace stripping `atob` performs, any
input still containing a character outside the base64 alphabet that is not
part of a valid trailing padding run, and any input with invalid padding
length, fails with `DecodeError`; the `Except.error` result carries no
partial output.  Stated as: (1) a surviving non-whitespace, non-padding
character outside the alphabet fails; (2) a stripped length ≡ 1 (mod 4)
(invalid padding length, e.g. `"AAAAA"`) fails; (3) any character — stray
`=` included, e.g. in `"A==="` — left outside the alphabet after the
trailing-padding strip fails. -/
theorem C8_theorem (s : String) :
    (∀ c ∈ s.data, isB64Ws c = false → b64Index c = none → c ≠ '=' →
      decode s = Except.error DecodeError.decodeError) ∧
    ((b64Stripped s).length % 4 = 1 →
      decode s = Except.error DecodeError.decodeError) ∧
    (∀ c ∈ b64Stripped s, b64Index c = none →
      decode s = Except.error DecodeError.decodeError) := by
  have hbad : ∀ c ∈ b64Stripped s, b64Index c = none →
      decode s = Except.error DecodeError.decodeError := by
    intro c hc hb
    have hall : ((b64Stripped s).all fun x => (b64Index x).isSome) = false :=
      List.all_eq_false.mpr ⟨c, hc, by simp [hb]⟩
    unfold decode
    dsimp only
    rw [hall]
    split <;> simp
  refine ⟨?_, ?_, hbad⟩
  · intro c hc hw hb hp
    refine hbad c ?_ hb
    have hct : c ∈ s.data.filter fun x => !(isB64Ws x) :=
      List.mem_filter.mpr ⟨hc, by simp [hw]⟩
    unfold b64Stripped
    dsimp only
    split
    · exact stripPadding_mem hct hp
    · exact hct
  · intro h1
    unfold decode
    dsimp only
    rw [if_pos h1]

/-- C8 witness: the malformed inputs `"!"` (character outside the alphabet),
`"AAAAA"` (invalid padding length: 5 ≡ 1 mod 4), and `"A==="` (a stray `=`
survives the trailing-padding strip) all fail with `DecodeError`. -/
theorem C8_witness :
    decode "!" = Except.error DecodeError.decodeError ∧
      decode "AAAAA" = Except.error DecodeError.decodeError ∧
      decode "A===" = Except.error DecodeError.decodeError :=
  ⟨( C8_theorem "!").1 '!' (by decide) (by decide) (by decide) (by decide),
   ( C8_theorem "AAAAA").2.1 (by decide),
   ( C8_theorem "A===").2.2 '=' (by decide) (by decide)⟩

end App
